import Mathlib

/-!
Verification of rasky/geventconnpool (src/geventconnpool/pool.py).

The pool is stateful, cooperatively scheduled (gevent greenlets yield only at
blocking operations), so we embed it two ways:

* a step relation `Step` on `PoolState`, whose transitions are the atomic
  (between-yield) code segments of `ConnectionPool.get` and
  `ConnectionPool._add_one`, used for the reachability invariants;
* end-to-end functional models of one borrow (`getRun`), one population task
  (`addOneGo`), the retry decorator (`retryGo`) and the keepalive loop
  (`keepaliveRun`), faithful to the Python control flow line by line.

Durations (SPAWN_FREQUENCY = 0.1, backoff intervals, keepalive delay) are
rationals; Python float arithmetic on these values is exact for everything we
evaluate (sums and doublings of 0.1 stay well inside double precision for the
indices we touch, and the comparisons involved are never at a tie), so ℚ is a
faithful model of the quantities the spec speaks about.
-/

namespace GeventConnPool

/-- The class constant `ConnectionPool.SPAWN_FREQUENCY = 0.1`. -/
def SPAWN_FREQUENCY : ℚ := 1 / 10

/-- The pool's mutable state, abstracted over the connection type:
`connections` is the deque of available connections (head = left end),
`permits` the counter of the `BoundedSemaphore` `self.lock`,
`borrowed` the number of connections currently held by callers inside `get`,
`inflight` the number of scheduled-or-running `_add_one` tasks that have not
yet appended their connection. -/
structure PoolState (Conn : Type) where
  connections : List Conn
  permits : Nat
  borrowed : Nat
  inflight : Nat
deriving DecidableEq

/-- State right after `ConnectionPool.__init__(size)`: empty deque, all
`size` permits acquired by the constructor loop (counter 0), no borrowers,
and `size` population tasks scheduled via `gevent.spawn_later`. -/
def initState (Conn : Type) (size : Nat) : PoolState Conn :=
  ⟨[], 0, 0, size⟩

/-- Atomic transitions of the pool under cooperative scheduling.  Each
constructor is a maximal yield-free code segment:

* `addOneDone`: tail of `_add_one` — `self.connections.append(conn)` directly
  followed by `self.lock.release()` (no yield between the two statements);
* `acquirePop`: in `get` — `self.lock.acquire()` succeeding (one permit
  consumed) directly followed by `conn = self.connections.popleft()`; the pop
  is written unconditionally (`q.tail`), exactly as the Python pops blindly;
* `returnConn`: the `else`/bare-`except` exits of `get` — append the borrowed
  connection back and release its permit;
* `failBroken`: the `except self.exc_classes` exit of `get` — no append, no
  release, one replacement `_add_one` scheduled via `spawn_later`. -/
inductive Step {Conn : Type} : PoolState Conn → PoolState Conn → Prop where
  | addOneDone (c : Conn) (q : List Conn) (p b f : Nat) :
      Step ⟨q, p, b, f + 1⟩ ⟨q ++ [c], p + 1, b, f⟩
  | acquirePop (q : List Conn) (p b f : Nat) :
      Step ⟨q, p + 1, b, f⟩ ⟨q.tail, p, b + 1, f⟩
  | returnConn (c : Conn) (q : List Conn) (p b f : Nat) :
      Step ⟨q, p, b + 1, f⟩ ⟨q ++ [c], p + 1, b, f⟩
  | failBroken (q : List Conn) (p b f : Nat) :
      Step ⟨q, p, b + 1, f⟩ ⟨q, p, b, f + 1⟩

/-- States the pool can reach from construction with capacity `size`. -/
def Reachable (Conn : Type) (size : Nat) (s : PoolState Conn) : Prop :=
  Relation.ReflTransGen Step (initState Conn size) s

/-- The capacity-accounting invariant of the pool. -/
def Inv {Conn : Type} (size : Nat) (s : PoolState Conn) : Prop :=
  s.connections.length = s.permits ∧
    s.connections.length + s.borrowed + s.inflight = size

theorem Inv_init (Conn : Type) (size : Nat) : Inv size (initState Conn size) := by
  constructor <;> simp [initState]

theorem Inv_step {Conn : Type} {size : Nat} {s t : PoolState Conn}
    (h : Inv size s) (hs : Step s t) : Inv size t := by
  obtain ⟨h1, h2⟩ := h
  cases hs with
  | addOneDone c q p b f =>
    simp only [Inv, List.length_append, List.length_cons, List.length_nil] at *
    omega
  | acquirePop q p b f =>
    simp only [Inv, List.length_tail] at *
    omega
  | returnConn c q p b f =>
    simp only [Inv, List.length_append, List.length_cons, List.length_nil] at *
    omega
  | failBroken q p b f =>
    simp only [Inv] at *
    omega

theorem Inv_reachable {Conn : Type} {size : Nat} {s : PoolState Conn}
    (h : Reachable Conn size s) : Inv size s := by
  induction h with
  | refl => exact Inv_init Conn size
  | tail _ hstep ih => exact Inv_step ih hstep

/-- Claim C1: at every reachable state after construction, the semaphore's
available permits equal the length of the available deque, and deque length
plus borrowed connections plus in-flight `_add_one` tasks equals the fixed
capacity; construction establishes it with zero permits (all acquired) and
`size` scheduled population tasks, and every step preserves it. -/
theorem pool_capacity_invariant (Conn : Type) (size : Nat) (s : PoolState Conn)
    (h : Reachable Conn size s) :
    s.connections.length = s.permits ∧
      s.connections.length + s.borrowed + s.inflight = size :=
  Inv_reachable h

theorem pool_capacity_invariant_witness :
    Reachable Nat 2 ⟨[5], 1, 0, 1⟩ ∧
      ((⟨[5], 1, 0, 1⟩ : PoolState Nat).connections.length =
          (⟨[5], 1, 0, 1⟩ : PoolState Nat).permits ∧
        (⟨[5], 1, 0, 1⟩ : PoolState Nat).connections.length +
            (⟨[5], 1, 0, 1⟩ : PoolState Nat).borrowed +
            (⟨[5], 1, 0, 1⟩ : PoolState Nat).inflight = 2) := by
  have hr : Reachable Nat 2 ⟨[5], 1, 0, 1⟩ :=
    Relation.ReflTransGen.single (Step.addOneDone 5 [] 0 0 1)
  exact ⟨hr, pool_capacity_invariant Nat 2 ⟨[5], 1, 0, 1⟩ hr⟩

/-- Claim C10: whenever `get` succeeds in acquiring a permit at a reachable state,
the available deque is non-empty, so `popleft` cannot fail: a permit is only
ever released after a connection has been appended. -/
theorem pop_after_acquire_safe (Conn : Type) (size : Nat) (s : PoolState Conn)
    (h : Reachable Conn size s) (hp : 1 ≤ s.permits) :
    s.connections ≠ [] := by
  have h1 := (Inv_reachable h).1
  intro hnil
  rw [hnil] at h1
  simp at h1
  omega

theorem pop_after_acquire_safe_witness :
    Reachable Nat 1 ⟨[7], 1, 0, 0⟩ ∧
      1 ≤ (⟨[7], 1, 0, 0⟩ : PoolState Nat).permits ∧
      (⟨[7], 1, 0, 0⟩ : PoolState Nat).connections ≠ [] := by
  have hr : Reachable Nat 1 ⟨[7], 1, 0, 0⟩ :=
    Relation.ReflTransGen.single (Step.addOneDone 7 [] 0 0 0)
  exact ⟨hr, by decide, pop_after_acquire_safe Nat 1 ⟨[7], 1, 0, 0⟩ hr (by decide)⟩

/-- Result of the caller's body inside `with pool.get() as conn:` — either a
normal return or a raised exception `e`.  Whether `e` is classified is decided
by the pool's `exc_classes` membership test, modelled as `isBroken`. -/
inductive Outcome (Err α : Type) where
  | ok (a : α)
  | raised (e : Err)
deriving DecidableEq

/-- One complete borrow through `ConnectionPool.get`, starting at state `s`
with a non-empty deque (the caller has just obtained a permit; see
`pop_after_acquire_safe`):
`self.lock.acquire()` consumes a permit, `popleft` removes the head, the body
runs on it, then exactly one of the three exit paths of `get` runs:

* `except self.exc_classes`: schedule one `_add_one` replacement
  (`inflight + 1`), re-raise — no append, no release;
* bare `except`: append the same connection, release, re-raise;
* `else`: append the same connection, release, return normally.

The returned `Outcome` is what the caller observes. -/
def getRun {Conn Err α : Type} (isBroken : Err → Bool) (s : PoolState Conn)
    (body : Conn → Outcome Err α) (h : s.connections ≠ []) :
    PoolState Conn × Outcome Err α :=
  match body (s.connections.head h) with
  | .ok a =>
    (⟨s.connections.tail ++ [s.connections.head h], s.permits - 1 + 1,
        s.borrowed, s.inflight⟩,
      .ok a)
  | .raised e =>
    if isBroken e then
      (⟨s.connections.tail, s.permits - 1, s.borrowed, s.inflight + 1⟩,
        .raised e)
    else
      (⟨s.connections.tail ++ [s.connections.head h], s.permits - 1 + 1,
          s.borrowed, s.inflight⟩,
        .raised e)

/-- The append-and-release tail of `_add_one`, once `_new_connection` has
produced `c`: `self.connections.append(conn)` then `self.lock.release()`. -/
def addOneFinish {Conn : Type} (s : PoolState Conn) (c : Conn) : PoolState Conn :=
  ⟨s.connections ++ [c], s.permits + 1, s.borrowed, s.inflight - 1⟩

/-- Claim C2: when the body raises a classified error, the borrowed connection is
not appended back, the permit taken by `acquire` is not released
(`permits - 1` stands), exactly one replacement `_add_one` is scheduled, and
the caller's own error is re-raised unchanged — `get` produces no error of
its own. -/
theorem get_broken_drops_and_replaces (Conn Err α : Type) (isBroken : Err → Bool)
    (s : PoolState Conn) (body : Conn → Outcome Err α) (h : s.connections ≠ [])
    (e : Err) (hbody : body (s.connections.head h) = .raised e)
    (hcl : isBroken e = true) :
    getRun isBroken s body h =
      (⟨s.connections.tail, s.permits - 1, s.borrowed, s.inflight + 1⟩,
        .raised e) := by
  unfold getRun
  rw [hbody]
  simp [hcl]

theorem get_broken_drops_and_replaces_witness :
    (fun _ : Nat => (Outcome.raised 9 : Outcome Nat Nat)) ((5 : Nat)) =
        .raised 9 ∧
      (fun _ : Nat => true) (9 : Nat) = true ∧
      getRun (fun _ => true) (⟨[5], 1, 0, 0⟩ : PoolState Nat)
          (fun _ => (Outcome.raised 9 : Outcome Nat Nat)) (by decide) =
        (⟨[], 0, 0, 1⟩, .raised 9) :=
  ⟨rfl, rfl,
    get_broken_drops_and_replaces Nat Nat Nat (fun _ => true) ⟨[5], 1, 0, 0⟩
      (fun _ => Outcome.raised 9) (by decide) 9 rfl rfl⟩

/-- Claim C3: when the body raises an unclassified error, the same connection
object is appended back to the deque, its permit is released (the count
returns to its pre-borrow value), and the error propagates unchanged. -/
theorem get_unclassified_returns_conn (Conn Err α : Type) (isBroken : Err → Bool)
    (s : PoolState Conn) (body : Conn → Outcome Err α) (h : s.connections ≠ [])
    (hp : 1 ≤ s.permits) (e : Err)
    (hbody : body (s.connections.head h) = .raised e)
    (hcl : isBroken e = false) :
    getRun isBroken s body h =
      (⟨s.connections.tail ++ [s.connections.head h], s.permits,
          s.borrowed, s.inflight⟩,
        .raised e) := by
  unfold getRun
  rw [hbody]
  simp only [hcl, Bool.false_eq_true, if_false]
  have hpp : s.permits - 1 + 1 = s.permits := by omega
  rw [hpp]

theorem get_unclassified_returns_conn_witness :
    1 ≤ (⟨[5], 1, 0, 0⟩ : PoolState Nat).permits ∧
      (fun _ : Nat => (Outcome.raised 9 : Outcome Nat Nat)) ((5 : Nat)) =
        .raised 9 ∧
      (fun _ : Nat => false) (9 : Nat) = false ∧
      getRun (fun _ => false) (⟨[5], 1, 0, 0⟩ : PoolState Nat)
          (fun _ => (Outcome.raised 9 : Outcome Nat Nat)) (by decide) =
        (⟨[5], 1, 0, 0⟩, .raised 9) :=
  ⟨by decide, rfl, rfl,
    get_unclassified_returns_conn Nat Nat Nat (fun _ => false) ⟨[5], 1, 0, 0⟩
      (fun _ => Outcome.raised 9) (by decide) (by decide) 9 rfl rfl⟩

/-- Claim C7: a borrow whose body returns normally is a round trip — the identical
connection object ends up back in the deque (at the tail) and the permit
count returns to its prior value; nothing is dropped or replaced. -/
theorem get_success_roundtrip (Conn Err α : Type) (isBroken : Err → Bool)
    (s : PoolState Conn) (body : Conn → Outcome Err α) (h : s.connections ≠ [])
    (hp : 1 ≤ s.permits) (a : α)
    (hbody : body (s.connections.head h) = .ok a) :
    getRun isBroken s body h =
      (⟨s.connections.tail ++ [s.connections.head h], s.permits,
          s.borrowed, s.inflight⟩,
        .ok a) := by
  unfold getRun
  rw [hbody]
  have hpp : s.permits - 1 + 1 = s.permits := by omega
  rw [hpp]

theorem get_success_roundtrip_witness :
    1 ≤ (⟨[5], 1, 0, 0⟩ : PoolState Nat).permits ∧
      (fun _ : Nat => (Outcome.ok 3 : Outcome Nat Nat)) ((5 : Nat)) = .ok 3 ∧
      getRun (fun _ => true) (⟨[5], 1, 0, 0⟩ : PoolState Nat)
          (fun _ => (Outcome.ok 3 : Outcome Nat Nat)) (by decide) =
        (⟨[5], 1, 0, 0⟩, .ok 3) :=
  ⟨by decide, rfl,
    get_success_roundtrip Nat Nat Nat (fun _ => true) ⟨[5], 1, 0, 0⟩
      (fun _ => Outcome.ok 3) (by decide) (by decide) 3 rfl⟩

/-- Claim C8: lending is FIFO — `get` always hands the body the head of the deque
(`popleft`), a successful return re-appends that connection at the tail, and
a replacement produced by `_add_one` is appended at the tail as well, so a
fresh connection is the last to be lent among currently-available ones. -/
theorem pool_fifo_order (Conn Err α : Type) (isBroken : Err → Bool)
    (s : PoolState Conn) (c : Conn) (t : List Conn)
    (hq : s.connections = c :: t) :
    (∀ body : Conn → Outcome Err α,
        (getRun isBroken s body (by rw [hq]; exact List.cons_ne_nil c t)).2 =
          body c) ∧
      (∀ (body : Conn → Outcome Err α) (a : α), body c = .ok a →
        (getRun isBroken s body
            (by rw [hq]; exact List.cons_ne_nil c t)).1.connections =
          t ++ [c]) ∧
      (∀ (s2 : PoolState Conn) (d : Conn),
        (addOneFinish s2 d).connections = s2.connections ++ [d]) := by
  obtain ⟨q, p, b, f⟩ := s
  simp only at hq
  subst hq
  refine ⟨?_, ?_, fun s2 d => rfl⟩
  · intro body
    unfold getRun
    simp only [List.head_cons, List.tail_cons]
    cases hb : body c with
    | ok a => rfl
    | raised e => by_cases hcl : isBroken e <;> simp [hcl]
  · intro body a hb
    unfold getRun
    simp only [List.head_cons, List.tail_cons]
    rw [hb]

theorem pool_fifo_order_witness :
    (⟨[4, 6], 1, 0, 0⟩ : PoolState Nat).connections = 4 :: [6] ∧
      (getRun (fun _ => true) (⟨[4, 6], 1, 0, 0⟩ : PoolState Nat)
          (fun c : Nat => (Outcome.ok c : Outcome Nat Nat)) (by decide)).2 = .ok 4 ∧
      (getRun (fun _ => true) (⟨[4, 6], 1, 0, 0⟩ : PoolState Nat)
          (fun c : Nat => (Outcome.ok c : Outcome Nat Nat)) (by decide)).1.connections =
        [6, 4] ∧
      (addOneFinish (⟨[4, 6], 1, 0, 0⟩ : PoolState Nat) 8).connections =
        [4, 6, 8] := by
  have h := pool_fifo_order Nat Nat Nat (fun _ => true) ⟨[4, 6], 1, 0, 0⟩ 4 [6] rfl
  exact ⟨rfl, h.1 (fun c => Outcome.ok c),
    h.2.1 (fun c => Outcome.ok c) 4 rfl, h.2.2 ⟨[4, 6], 1, 0, 0⟩ 8⟩

/-- Observable events of the `retry` decorator's loop, with a logger set:
`retryLog e` is the `logger.log(retry_log_level, ...)` call made on each
classified failure, `maxFailLog` the `logger.log(max_failure_log_level, ...)`
call made when the failure counter exceeds `max_failures`, `sleep i` the
`gevent.sleep(interval)` before the next attempt. -/
inductive RetryEvent (Err : Type) where
  | retryLog (e : Err)
  | maxFailLog
  | sleep (interval : ℚ)
deriving DecidableEq

/-- What a run of the decorated function produced: the log/sleep events in
order, how many calls to `func` were attempted, and the final result
(`none` when the supplied list of call behaviours ran out while the loop
would still have retried). -/
structure RetryResult (Err α : Type) where
  events : List (RetryEvent Err)
  attempts : Nat
  result : Option (Outcome Err α)
deriving DecidableEq

/-- The cap test of `retry`: `max_failures is not None and
failures > max_failures`. -/
def maxFailuresHit (maxFailures : Option Nat) (failures : Nat) : Bool :=
  match maxFailures with
  | none => false
  | some m => m < failures

/-- The `while True` loop of the `retry` decorator (`deco`), run against a
list prescribing the outcome of each successive call to `func`:

* a normal return exits the loop with that value;
* a classified error logs the retry message, increments `failures`, and
  either (counter above the cap) logs the max-failure message and re-raises
  the original error, or sleeps `interval` and retries;
* an unclassified error is not caught by `except exc_classes` and propagates
  at once, with no logging and no further attempt. -/
def retryGo {Err α : Type} (isBroken : Err → Bool) (maxFailures : Option Nat)
    (interval : ℚ) (failures : Nat) :
    List (Outcome Err α) → RetryResult Err α
  | [] => ⟨[], 0, none⟩
  | .ok a :: _ => ⟨[], 1, some (.ok a)⟩
  | .raised e :: rest =>
    if isBroken e then
      if maxFailuresHit maxFailures (failures + 1) then
        ⟨[.retryLog e, .maxFailLog], 1, some (.raised e)⟩
      else
        ⟨.retryLog e :: .sleep interval ::
            (retryGo isBroken maxFailures interval (failures + 1) rest).events,
          (retryGo isBroken maxFailures interval (failures + 1) rest).attempts + 1,
          (retryGo isBroken maxFailures interval (failures + 1) rest).result⟩
    else
      ⟨[], 1, some (.raised e)⟩

/-- A call of the decorated function: the loop starts with `failures = 0`. -/
def retryRun {Err α : Type} (isBroken : Err → Bool) (maxFailures : Option Nat)
    (interval : ℚ) (calls : List (Outcome Err α)) : RetryResult Err α :=
  retryGo isBroken maxFailures interval 0 calls

/-- Event trace of a run of `k` consecutive classified failures that ends by
exceeding the cap on the `k`-th one: a retry log per failure, a sleep after
each non-final failure, and the max-failure log last. -/
def retryFailEvents (Err : Type) (e : Err) (interval : ℚ) :
    Nat → List (RetryEvent Err)
  | 0 => []
  | 1 => [.retryLog e, .maxFailLog]
  | k + 2 => .retryLog e :: .sleep interval :: retryFailEvents Err e interval (k + 1)

theorem retryGo_step_retry {Err α : Type} (isBroken : Err → Bool)
    (mf : Option Nat) (interval : ℚ) (f : Nat) (e : Err)
    (rest : List (Outcome Err α)) (hcl : isBroken e = true)
    (hhit : maxFailuresHit mf (f + 1) = false) :
    retryGo isBroken mf interval f (.raised e :: rest) =
      ⟨.retryLog e :: .sleep interval ::
          (retryGo isBroken mf interval (f + 1) rest).events,
        (retryGo isBroken mf interval (f + 1) rest).attempts + 1,
        (retryGo isBroken mf interval (f + 1) rest).result⟩ := by
  simp only [retryGo, hcl, if_true, hhit, Bool.false_eq_true, if_false]

theorem retryGo_step_maxhit {Err α : Type} (isBroken : Err → Bool)
    (mf : Option Nat) (interval : ℚ) (f : Nat) (e : Err)
    (rest : List (Outcome Err α)) (hcl : isBroken e = true)
    (hhit : maxFailuresHit mf (f + 1) = true) :
    retryGo isBroken mf interval f (.raised e :: rest) =
      ⟨[.retryLog e, .maxFailLog], 1, some (.raised e)⟩ := by
  simp only [retryGo, hcl, if_true, hhit]

theorem retryGo_all_broken {Err α : Type} (isBroken : Err → Bool) (m : Nat)
    (e : Err) (interval : ℚ) (hcl : isBroken e = true) :
    ∀ (k f : Nat) (rest : List (Outcome Err α)), 1 ≤ k → f + k = m + 1 →
      retryGo isBroken (some m) interval f
          (List.replicate k (.raised e) ++ rest) =
        ⟨retryFailEvents Err e interval k, k, some (.raised e)⟩ := by
  intro k
  induction k with
  | zero => intro f rest h1 _; omega
  | succ n ih =>
    intro f rest _ hsum
    rw [List.replicate_succ, List.cons_append]
    cases n with
    | zero =>
      have hhit : maxFailuresHit (some m) (f + 1) = true := by
        simp only [maxFailuresHit, decide_eq_true_eq]
        omega
      rw [retryGo_step_maxhit isBroken (some m) interval f e _ hcl hhit]
      rfl
    | succ n2 =>
      have hhit : maxFailuresHit (some m) (f + 1) = false := by
        simp only [maxFailuresHit, decide_eq_false_iff_not]
        omega
      have ihr := ih (f + 1) rest (by omega) (by omega)
      rw [retryGo_step_retry isBroken (some m) interval f e _ hcl hhit, ihr]
      rfl

/-- Claim C4: with `max_failures = m` set, each classified failure fires the retry
log and bumps the counter; the failure that makes the counter exceed the cap
fires the max-failure log and re-raises the caller's original error, and no
further call is attempted — for a function raising a classified error on its
first `m + 1` calls, exactly `m + 1` calls happen whatever the function
would do afterwards (so with `max_failures = 2` and failures on calls 1–3,
the decorator re-raises after call 3 and call 4 never happens). -/
theorem retry_stops_after_max_failures (Err α : Type) (isBroken : Err → Bool)
    (m : Nat) (e : Err) (interval : ℚ) (rest : List (Outcome Err α))
    (hcl : isBroken e = true) :
    retryRun isBroken (some m) interval
        (List.replicate (m + 1) (.raised e) ++ rest) =
      ⟨retryFailEvents Err e interval (m + 1), m + 1, some (.raised e)⟩ :=
  retryGo_all_broken isBroken m e interval hcl (m + 1) 0 rest (by omega) (by omega)

theorem retry_stops_after_max_failures_witness :
    (fun _ : Nat => true) (9 : Nat) = true ∧
      @retryRun Nat Nat (fun _ => true) (some 2) (1 / 2)
          [.raised 9, .raised 9, .raised 9, .ok 4] =
        ⟨[.retryLog 9, .sleep (1 / 2), .retryLog 9, .sleep (1 / 2),
            .retryLog 9, .maxFailLog], 3, some (.raised 9)⟩ :=
  ⟨rfl,
    retry_stops_after_max_failures Nat Nat (fun _ => true) 2 9 (1 / 2) [.ok 4] rfl⟩

/-- The interval update at the end of each failed iteration of `_add_one`:
`if interval < 400: interval *= 2`. -/
def intervalStep (i : ℚ) : ℚ :=
  if i < 400 then 2 * i else i

/-- The interval `_add_one` sleeps at its `n`-th failed attempt (0-indexed):
`interval` starts at `SPAWN_FREQUENCY`, the sleep happens before the update,
and the update doubles while `interval < 400`. -/
def addOneInterval : Nat → ℚ
  | 0 => SPAWN_FREQUENCY
  | n + 1 => intervalStep (addOneInterval n)

/-- The retry loop of `_add_one`, run against a list prescribing the result
of each successive `self._new_connection()` call (`none` models a falsy
return): the first call happens before the loop; each falsy result sleeps
the current interval, updates it, and calls again.  Returns the connection
eventually obtained and the list of sleep durations in order, or `none` when
the prescribed results ran out while the loop would still be retrying. -/
def addOneGo {Conn : Type} (interval : ℚ) :
    List (Option Conn) → Option (Conn × List ℚ)
  | [] => none
  | some c :: _ => some (c, [])
  | none :: rest =>
    match addOneGo (intervalStep interval) rest with
    | none => none
    | some (c, sleeps) => some (c, interval :: sleeps)

/-- A full `_add_one` run: the loop starts with `interval = SPAWN_FREQUENCY`. -/
def addOneRun {Conn : Type} (results : List (Option Conn)) :
    Option (Conn × List ℚ) :=
  addOneGo SPAWN_FREQUENCY results

theorem addOneInterval_closed (n : Nat) :
    addOneInterval n = SPAWN_FREQUENCY * 2 ^ min n 12 := by
  induction n with
  | zero => simp [addOneInterval]
  | succ k ih =>
    rw [addOneInterval, ih, intervalStep]
    rcases le_or_lt 12 k with hk | hk
    · have hmin : min k 12 = 12 := by omega
      have hmin2 : min (k + 1) 12 = 12 := by omega
      rw [hmin, hmin2]
      have hno : ¬SPAWN_FREQUENCY * 2 ^ 12 < 400 := by
        rw [SPAWN_FREQUENCY]
        norm_num
      rw [if_neg hno]
    · have hmin : min k 12 = k := by omega
      have hmin2 : min (k + 1) 12 = k + 1 := by omega
      rw [hmin, hmin2]
      have hlt : SPAWN_FREQUENCY * 2 ^ k < 400 := by
        have h2 : (2 : ℚ) ^ k ≤ 2 ^ 11 :=
          pow_le_pow_right₀ (by norm_num) (by omega)
        have h3 : SPAWN_FREQUENCY * 2 ^ k ≤ SPAWN_FREQUENCY * 2 ^ 11 := by
          apply mul_le_mul_of_nonneg_left h2
          rw [SPAWN_FREQUENCY]
          norm_num
        calc SPAWN_FREQUENCY * 2 ^ k ≤ SPAWN_FREQUENCY * 2 ^ 11 := h3
          _ < 400 := by rw [SPAWN_FREQUENCY]; norm_num
      rw [if_pos hlt]
      ring

theorem addOneInterval_le (n : Nat) : addOneInterval n ≤ 2048 / 5 := by
  rw [addOneInterval_closed]
  have h2 : (2 : ℚ) ^ min n 12 ≤ 2 ^ 12 :=
    pow_le_pow_right₀ (by norm_num) (min_le_right n 12)
  have h3 : SPAWN_FREQUENCY * 2 ^ min n 12 ≤ SPAWN_FREQUENCY * 2 ^ 12 := by
    apply mul_le_mul_of_nonneg_left h2
    rw [SPAWN_FREQUENCY]
    norm_num
  calc SPAWN_FREQUENCY * 2 ^ min n 12 ≤ SPAWN_FREQUENCY * 2 ^ 12 := h3
    _ = 2048 / 5 := by rw [SPAWN_FREQUENCY]; norm_num

/-- Sleeps of a run that starts with interval `i` and sees `n` failures:
`i`, then the sleeps of a run starting from the updated interval. -/
def intervalFrom (i : ℚ) : Nat → ℚ
  | 0 => i
  | n + 1 => intervalFrom (intervalStep i) n

theorem intervalFrom_eq_addOneInterval (n : Nat) :
    intervalFrom SPAWN_FREQUENCY n = addOneInterval n := by
  have key : ∀ (m : Nat) (i : ℚ), intervalFrom i (m + 1) =
      intervalStep (intervalFrom i m) := by
    intro m
    induction m with
    | zero => intro i; rfl
    | succ p ih => intro i; rw [intervalFrom, ih (intervalStep i)]; rfl
  induction n with
  | zero => rfl
  | succ k ih => rw [key k SPAWN_FREQUENCY, ih, addOneInterval]

theorem addOneGo_scan {Conn : Type} :
    ∀ (k : Nat) (i : ℚ) (c : Conn) (rest : List (Option Conn)),
      addOneGo i (List.replicate k none ++ some c :: rest) =
        some (c, (List.range k).map (intervalFrom i)) := by
  intro k
  induction k with
  | zero => intro i c rest; rfl
  | succ n ih =>
    intro i c rest
    rw [List.replicate_succ, List.cons_append, addOneGo,
      ih (intervalStep i) c rest]
    rw [List.range_succ_eq_map, List.map_cons, List.map_map]
    rfl

theorem addOneGo_all_none {Conn : Type} :
    ∀ (k : Nat) (i : ℚ),
      @addOneGo Conn i (List.replicate k none) = none := by
  intro k
  induction k with
  | zero => intro i; rfl
  | succ n ih =>
    intro i
    rw [List.replicate_succ, addOneGo, ih (intervalStep i)]

/-- Claim C5 (amended): the sleeps of `_add_one` between failed
`_new_connection` attempts double from `0.1`, but the doubling only stops at
the first value at or above `400`, namely `0.1 · 2^12 = 409.6`: the `n`-th
sleep is `0.1 · 2^min(n,12)`, every sleep is at most `409.6 = 2048/5` (not
`400`), and the task retries until the factory yields a connection —
a run with `k` falsy results then a connection returns that connection after
sleeping exactly that sequence, while a run whose prescribed results are all
falsy never completes. -/
theorem addOne_backoff_doubling (Conn : Type) (n k : Nat) (c : Conn)
    (rest : List (Option Conn)) :
    addOneInterval n = SPAWN_FREQUENCY * 2 ^ min n 12 ∧
      addOneInterval n ≤ 2048 / 5 ∧
      addOneRun (List.replicate k none ++ some c :: rest) =
        some (c, (List.range k).map addOneInterval) ∧
      addOneRun (List.replicate k (none : Option Conn)) = none := by
  refine ⟨addOneInterval_closed n, addOneInterval_le n, ?_, ?_⟩
  · rw [addOneRun, addOneGo_scan k SPAWN_FREQUENCY c rest]
    have : (intervalFrom SPAWN_FREQUENCY) = addOneInterval :=
      funext intervalFrom_eq_addOneInterval
    rw [this]
  · exact addOneGo_all_none k SPAWN_FREQUENCY

/-- Claim C5 counterexample: after twelve failed attempts the sleep interval
is `409.6 > 400` — the code doubles while `interval < 400`, so the cap
actually reached is `409.6`, not `400`: a run with thirteen falsy factory
results sleeps `0.1, 0.2, …, 204.8, 409.6`. -/
theorem addOne_delay_exceeds_400 :
    addOneRun (List.replicate 13 (none : Option Nat) ++ [some 7]) =
      some (7, (List.range 13).map addOneInterval) ∧
      (2048 / 5 : ℚ) ∈ (List.range 13).map addOneInterval ∧
      (400 : ℚ) < 2048 / 5 := by
  have h12 : addOneInterval 12 = 2048 / 5 := by
    rw [addOneInterval_closed]
    norm_num [SPAWN_FREQUENCY]
  refine ⟨?_, ?_, by norm_num⟩
  · rw [addOneRun, addOneGo_scan 13 SPAWN_FREQUENCY 7 [],
      funext intervalFrom_eq_addOneInterval]
  · exact List.mem_map.mpr ⟨12, by simp, h12⟩

/-- Observable events of one pass through the body of the `while 1` loop of
`_keepalive_periodic`: the `self.get()` acquire+pop, the `self._keepalive`
probe call, putting the connection back (`connections.append`), the permit
release, the `spawn_later(..., self._add_one)` replacement scheduling done
inside `get` on a classified error, and `gevent.sleep(delay)`. -/
inductive KEvent (Err : Type) where
  | sleep (d : ℚ)
  | acquire
  | probe
  | enqueue
  | release
  | scheduleReplacement
deriving DecidableEq

/-- The delay computed at the top of `_keepalive_periodic`:
`float(self.keepalive) / self.size`. -/
def keepaliveDelay (keepalive : ℚ) (size : Nat) : ℚ :=
  keepalive / size

/-- One pass through the `while 1` body of `_keepalive_periodic`, given the
probe's behaviour (`none` = returns, `some e` = raises `e`): the borrow runs
under `get`, a classified error re-raised by `get` is swallowed by the
loop's `except self.exc_classes: pass` and the pass ends with
`gevent.sleep(delay)`; any other error propagates out of the loop before
the sleep is reached.  Second component: the error escaping the loop. -/
def keepaliveCycle {Err : Type} (isBroken : Err → Bool) (delay : ℚ)
    (r : Option Err) : List (KEvent Err) × Option Err :=
  match r with
  | none => ([.acquire, .probe, .enqueue, .release, .sleep delay], none)
  | some e =>
    if isBroken e then
      ([.acquire, .probe, .scheduleReplacement, .sleep delay], none)
    else
      ([.acquire, .probe, .enqueue, .release], some e)

/-- The `while 1` loop of `_keepalive_periodic` run against a list
prescribing each successive probe's behaviour; `none` in the second
component means the loop is still running after consuming the list. -/
def keepaliveRun {Err : Type} (isBroken : Err → Bool) (delay : ℚ) :
    List (Option Err) → List (KEvent Err) × Option Err
  | [] => ([], none)
  | r :: rest =>
    match keepaliveCycle isBroken delay r with
    | (evs, some e) => (evs, some e)
    | (evs, none) =>
      (evs ++ (keepaliveRun isBroken delay rest).1,
        (keepaliveRun isBroken delay rest).2)

/-- Modelled from the spec's wording, for comparison with `keepaliveCycle`:
each cycle FIRST sleeps `keepaliveInterval / capacity` and THEN performs one
Acquire, invokes the probe and releases. -/
def keepaliveCycleClaimed {Err : Type} (isBroken : Err → Bool) (delay : ℚ)
    (r : Option Err) : List (KEvent Err) × Option Err :=
  match r with
  | none => ([.sleep delay, .acquire, .probe, .enqueue, .release], none)
  | some e =>
    if isBroken e then
      ([.sleep delay, .acquire, .probe, .scheduleReplacement], none)
    else
      ([.sleep delay, .acquire, .probe, .enqueue, .release], some e)

/-- Claim C6 counterexample: the keepalive loop body is not
sleep-then-probe — it probes first and sleeps last: a cycle with a healthy
probe differs from the spec-worded cycle, and its first event is the
Acquire, not the sleep. -/
theorem keepalive_cycle_not_sleep_first :
    keepaliveCycle (fun _ : Nat => true) 2 none ≠
      keepaliveCycleClaimed (fun _ : Nat => true) 2 none ∧
      (keepaliveCycle (fun _ : Nat => true) 2 none).1.head? =
        some KEvent.acquire := by
  constructor
  · decide
  · rfl

/-- Claim C6 (amended): when `keepalive` is set the loop runs forever as
long as no unclassified error occurs; each cycle performs one acquire,
probes the borrowed connection, and releases or discards it, and then — at
the end of the cycle, not at its start — sleeps `keepalive / size` (so the
first probe happens with no initial delay); a classified probe error is
swallowed (the cycle still ends with the sleep, a replacement having been
scheduled inside `get`), any other error propagates out of the loop before
the sleep; with `size = 4` and `keepalive = 8` the sleep is 2 time-units. -/
theorem keepalive_loop_behaviour (Err : Type) (isBroken : Err → Bool)
    (delay : ℚ) :
    keepaliveDelay 8 4 = 2 ∧
      (∀ e : Err, isBroken e = true →
        keepaliveCycle isBroken delay (some e) =
          ([.acquire, .probe, .scheduleReplacement, .sleep delay], none)) ∧
      (∀ e : Err, isBroken e = false →
        keepaliveCycle isBroken delay (some e) =
          ([.acquire, .probe, .enqueue, .release], some e)) ∧
      (∀ probes : List (Option Err),
        (∀ e : Err, some e ∈ probes → isBroken e = true) →
        (keepaliveRun isBroken delay probes).2 = none) ∧
      (∀ r : Option Err,
        (keepaliveCycle isBroken delay r).1.head? = some .acquire ∧
          ((keepaliveCycle isBroken delay r).2 = none →
            (keepaliveCycle isBroken delay r).1.getLast? =
              some (.sleep delay))) := by
  refine ⟨by norm_num [keepaliveDelay], ?_, ?_, ?_, ?_⟩
  · intro e he
    simp [keepaliveCycle, he]
  · intro e he
    simp [keepaliveCycle, he]
  · intro probes
    induction probes with
    | nil => intro _; rfl
    | cons r rest ih =>
      intro hall
      have hrest : ∀ e : Err, some e ∈ rest → isBroken e = true := by
        intro e he
        exact hall e (List.mem_cons_of_mem r he)
      cases r with
      | none =>
        simp only [keepaliveRun, keepaliveCycle]
        exact ih hrest
      | some e =>
        have he : isBroken e = true := hall e (List.mem_cons_self (some e) rest)
        simp only [keepaliveRun, keepaliveCycle, he, if_true]
        exact ih hrest
  · intro r
    cases r with
    | none => exact ⟨rfl, fun _ => rfl⟩
    | some e =>
      by_cases he : isBroken e
      · constructor
        · simp [keepaliveCycle, he]
        · intro _
          simp [keepaliveCycle, he]
      · constructor
        · simp [keepaliveCycle, he]
        · intro hnone
          simp [keepaliveCycle, he] at hnone

theorem keepalive_loop_behaviour_witness :
    ((fun e : Nat => decide (e = 0)) 0 = true) ∧
      keepaliveCycle (fun e : Nat => decide (e = 0)) 2 (some 0) =
        ([.acquire, .probe, .scheduleReplacement, .sleep 2], none) ∧
      ((fun e : Nat => decide (e = 0)) 1 = false) ∧
      keepaliveCycle (fun e : Nat => decide (e = 0)) 2 (some 1) =
        ([.acquire, .probe, .enqueue, .release], some 1) ∧
      (∀ e : Nat, some e ∈ [Option.some 0, none] → decide (e = 0) = true) ∧
      (keepaliveRun (fun e : Nat => decide (e = 0)) 2 [some 0, none]).2 =
        none := by
  have h := keepalive_loop_behaviour Nat (fun e => decide (e = 0)) 2
  refine ⟨by decide, h.2.1 0 (by decide), by decide, h.2.2.1 1 (by decide),
    ?_, ?_⟩
  · intro e he
    simp at he
    simp [he]
  · exact h.2.2.2.1 [some 0, none] (by intro e he; simp at he; simp [he])

/-- What `ConnectionPool.__init__` produced and scheduled: the initial pool
state, the start delays of the `size` scheduled `_add_one` tasks, and
whether a keepalive loop greenlet was spawned. -/
structure InitResult (Conn : Type) where
  state : PoolState Conn
  spawnDelays : List ℚ
  keepaliveScheduled : Bool
deriving DecidableEq

/-- The Python truthiness test `if self.keepalive:` guarding the
`gevent.spawn(self._keepalive_periodic)` call: an unset keepalive (`None`)
and the falsy number `0` both fail it. -/
def keepaliveTruthy (keepalive : Option ℚ) : Bool :=
  match keepalive with
  | none => false
  | some k => decide (k ≠ 0)

/-- Model of `ConnectionPool.__init__(size, exc_classes, keepalive)`: store
the options, acquire all `size` permits of the fresh `BoundedSemaphore`,
schedule `size` `_add_one` tasks at delays `SPAWN_FREQUENCY * i`, and spawn
the keepalive loop under the Python truthiness test `if self.keepalive:` —
a keepalive that is unset (`None`) or set to the falsy number `0` spawns no
loop.  The body contains no validation and no branch raises for any
`size ≥ 0` (`BoundedSemaphore(0)` is legal and both `xrange(size)` loops
are simply empty), so construction always completes: the result is always
`some`, never a rejection. -/
def poolInit (Conn : Type) (size : Nat) (keepalive : Option ℚ) :
    Option (InitResult Conn) :=
  some ⟨initState Conn size,
    (List.range size).map (fun i : Nat => SPAWN_FREQUENCY * (i : ℚ)),
    keepaliveTruthy keepalive⟩

/-- Claim C9 counterexample: constructing a pool with `capacity = 0` (a
capacity that is not a positive integer) is not rejected — `__init__` runs
to completion and yields a permanently empty pool with no scheduled tasks. -/
theorem init_size_zero_not_rejected :
    poolInit Nat 0 none = some ⟨⟨[], 0, 0, 0⟩, [], false⟩ ∧
      (poolInit Nat 0 none).isSome = true := by
  exact ⟨rfl, rfl⟩

/-- Claim C9 (amended): `__init__` validates none of its options — every
capacity, zero included, and every keepalive option produce a constructed
pool, with the deque empty, all permits acquired, exactly `size` population
tasks scheduled at the staggered delays `0.1 · i`, and the keepalive loop
spawned exactly when the option is truthy, that is set to a non-zero
value. -/
theorem init_accepts_any_config (Conn : Type) (size : Nat)
    (keepalive : Option ℚ) :
    (poolInit Conn size keepalive).isSome = true ∧
      (poolInit Conn size keepalive).map (fun r => r.state) =
        some (initState Conn size) ∧
      (poolInit Conn size keepalive).map (fun r => r.spawnDelays) =
        some ((List.range size).map
          (fun i : Nat => SPAWN_FREQUENCY * (i : ℚ))) ∧
      (poolInit Conn size keepalive).map (fun r => r.spawnDelays.length) =
        some size ∧
      ((poolInit Conn size keepalive).map (fun r => r.keepaliveScheduled) =
          some true ↔ ∃ k : ℚ, keepalive = some k ∧ k ≠ 0) := by
  refine ⟨rfl, ?_, ?_, ?_, ?_⟩
  · rw [poolInit, Option.map_some']
  · rw [poolInit, Option.map_some']
  · rw [poolInit, Option.map_some', List.length_map, List.length_range]
  · cases keepalive with
    | none =>
      rw [poolInit, Option.map_some']
      constructor
      · intro h
        simp [keepaliveTruthy] at h
      · rintro ⟨k, hk, _⟩
        exact absurd hk (by simp)
    | some k =>
      rw [poolInit, Option.map_some']
      constructor
      · intro h
        simp only [keepaliveTruthy, Option.some_inj, decide_eq_true_eq] at h
        exact ⟨k, rfl, h⟩
      · rintro ⟨k2, hk2, hne⟩
        rw [Option.some_inj] at hk2
        subst hk2
        simp [keepaliveTruthy, hne]

end GeventConnPool
